import Mathlib

/-
Verification of the transfer-pricing-agent RAG pipeline and its frontend.

The repository ships the frontend (frontend/src/App.js), the deployment
description (docker-compose.yml) and a README; the backend pipeline
(Chunker, Embedder, Vector Store, Retriever, Answer Synthesizer,
Orchestrator) is described by the specification only.  Backend components
are therefore modelled from the spec, faithful to its words; the frontend
is embedded from App.js.
-/

namespace TP

/-- Modelled from the spec: error taxonomy of the Chunker (the backend
source is missing from the repository).  ConfigError signals bad chunking
parameters, fatal at startup. -/
inductive ChunkErr where
  | ConfigError
deriving DecidableEq

/-- Modelled from the spec: the Chunker sliding window (backend source
missing).  Splits a text into windows of at most S characters; each chunk
after the first starts S - O characters past the previous chunk start, so
consecutive chunks share O characters; a text no longer than S yields
exactly one chunk and the final chunk may be shorter than S.  The guard
S ≤ O only makes the function total; the Chunker proper rejects that case
with ConfigError (see chunkDoc). -/
def chunkFrom (S O : Nat) (cs : List Char) : List (List Char) :=
  if cs.length ≤ S ∨ S ≤ O then [cs]
  else (cs.take S) :: chunkFrom S O (cs.drop (S - O))
termination_by cs.length
decreasing_by
  rename_i h
  rw [List.length_drop]
  omega

/-- Modelled from the spec: Chunker entry point for one text (backend
source missing).  Fails with ConfigError if overlap ≥ chunk_size,
otherwise produces the chunk sequence. -/
def chunkDoc (S O : Nat) (cs : List Char) : Except ChunkErr (List (List Char)) :=
  if S ≤ O then Except.error ChunkErr.ConfigError else Except.ok (chunkFrom S O cs)

/-- Concatenation of a chunk sequence with the O overlapping characters
removed from every chunk after the first. -/
def deOverlap (O : Nat) : List (List Char) → List Char
  | [] => []
  | c :: rest => c ++ (rest.map (List.drop O)).flatten

/-- Concatenation of a chunk sequence with O characters removed from every
chunk, the first included. -/
def allDropped (O : Nat) (l : List (List Char)) : List Char :=
  (l.map (List.drop O)).flatten

theorem chunkFrom_base (S O : Nat) (cs : List Char) (h : cs.length ≤ S ∨ S ≤ O) :
    chunkFrom S O cs = [cs] := by
  rw [chunkFrom, if_pos h]

theorem chunkFrom_rec (S O : Nat) (cs : List Char) (h : ¬(cs.length ≤ S ∨ S ≤ O)) :
    chunkFrom S O cs = (cs.take S) :: chunkFrom S O (cs.drop (S - O)) := by
  rw [chunkFrom]
  rw [if_neg h]

theorem allDropped_chunkFrom (S O : Nat) (hSO : O < S) (cs : List Char) :
    allDropped O (chunkFrom S O cs) = List.drop O cs := by
  by_cases h : cs.length ≤ S ∨ S ≤ O
  · rw [chunkFrom_base S O cs h]
    simp [allDropped]
  · rw [chunkFrom_rec S O cs h]
    push_neg at h
    have IH := allDropped_chunkFrom S O hSO (cs.drop (S - O))
    simp only [allDropped, List.map_cons, List.flatten_cons] at IH ⊢
    rw [IH]
    have h1 : List.drop O (List.take S cs) = List.take (S - O) (List.drop O cs) :=
      List.drop_take ..
    have h2 : List.drop O (List.drop (S - O) cs) = List.drop (S - O) (List.drop O cs) := by
      rw [List.drop_drop, List.drop_drop]
      congr 1
      omega
    rw [h1, h2, List.take_append_drop]
termination_by cs.length
decreasing_by
  rw [List.length_drop]
  omega

theorem chunkFrom_getElem (S O : Nat) (hSO : O < S) (cs : List Char) (i : Nat)
    (hi : i < (chunkFrom S O cs).length) :
    (chunkFrom S O cs)[i]? = some ((cs.drop (i * (S - O))).take S) := by
  by_cases h : cs.length ≤ S ∨ S ≤ O
  · rw [chunkFrom_base S O cs h] at hi ⊢
    simp only [List.length_singleton] at hi
    have hz : i = 0 := by omega
    subst hz
    have hlen : cs.length ≤ S := h.resolve_right (by omega)
    simp [List.take_of_length_le hlen]
  · rw [chunkFrom_rec S O cs h] at hi ⊢
    cases i with
    | zero => simp
    | succ j =>
      simp only [List.getElem?_cons_succ, List.length_cons] at hi ⊢
      have IH := chunkFrom_getElem S O hSO (cs.drop (S - O)) j (by omega)
      rw [IH, List.drop_drop]
      have ha : S - O + j * (S - O) = (j + 1) * (S - O) := by ring
      rw [ha]
termination_by cs.length
decreasing_by
  rw [List.length_drop]
  omega

/-- C1: for a text of length L and a configuration with chunk size S and
overlap O, 0 ≤ O < S, the Chunker produces an ordered gap-free sequence of
chunks, chunk i starting i * (S - O) characters into the text (so each
chunk after the first starts S - O characters past the previous chunk
start), whose concatenation with the O-character overlaps removed
reconstructs the text exactly; a text shorter than S yields exactly one
chunk, and the Chunker entry point succeeds on such a configuration. -/
theorem chunker_reconstructs (S O : Nat) (cs : List Char) (hSO : O < S) :
    deOverlap O (chunkFrom S O cs) = cs
    ∧ (∀ i : Nat, i < (chunkFrom S O cs).length →
        (chunkFrom S O cs)[i]? = some ((cs.drop (i * (S - O))).take S))
    ∧ (cs.length ≤ S → chunkFrom S O cs = [cs])
    ∧ chunkDoc S O cs = Except.ok (chunkFrom S O cs) := by
  refine ⟨?_, ?_, ?_, ?_⟩
  · by_cases h : cs.length ≤ S ∨ S ≤ O
    · rw [chunkFrom_base S O cs h]
      simp [deOverlap]
    · rw [chunkFrom_rec S O cs h]
      show List.take S cs ++ allDropped O (chunkFrom S O (cs.drop (S - O))) = cs
      rw [allDropped_chunkFrom S O hSO]
      have h2 : List.drop O (List.drop (S - O) cs) = List.drop S cs := by
        rw [List.drop_drop]
        congr 1
        omega
      rw [h2, List.take_append_drop]
  · intro i hi
    exact chunkFrom_getElem S O hSO cs i hi
  · intro hle
    exact chunkFrom_base S O cs (Or.inl hle)
  · simp only [chunkDoc]
    rw [if_neg (by omega)]

/-- Concrete instance of C1 at S = 3, O = 1 on a five-character text. -/
theorem chunker_reconstructs_witness :
    deOverlap 1 (chunkFrom 3 1 ['a', 'b', 'c', 'd', 'e']) = ['a', 'b', 'c', 'd', 'e']
    ∧ (∀ i : Nat, i < (chunkFrom 3 1 ['a', 'b', 'c', 'd', 'e']).length →
        (chunkFrom 3 1 ['a', 'b', 'c', 'd', 'e'])[i]? =
          some ((['a', 'b', 'c', 'd', 'e'].drop (i * (3 - 1))).take 3))
    ∧ (['a', 'b', 'c', 'd', 'e'].length ≤ 3 →
        chunkFrom 3 1 ['a', 'b', 'c', 'd', 'e'] = [['a', 'b', 'c', 'd', 'e']])
    ∧ chunkDoc 3 1 ['a', 'b', 'c', 'd', 'e'] =
        Except.ok (chunkFrom 3 1 ['a', 'b', 'c', 'd', 'e']) :=
  chunker_reconstructs 3 1 ['a', 'b', 'c', 'd', 'e'] (by decide)

/-- C5: the Chunker fails with ConfigError exactly when overlap ≥
chunk_size, and chunking is performed exactly under the precondition
0 ≤ O < S (the default configuration chunk_size 1000, overlap 100 from
docker-compose.yml satisfies it). -/
theorem chunker_config_error (S O : Nat) (cs : List Char) :
    (chunkDoc S O cs = Except.error ChunkErr.ConfigError ↔ S ≤ O)
    ∧ (O < S → chunkDoc S O cs = Except.ok (chunkFrom S O cs)) := by
  constructor
  · constructor
    · intro h
      by_contra hc
      push_neg at hc
      rw [chunkDoc, if_neg (by omega)] at h
      exact Except.noConfusion h
    · intro h
      rw [chunkDoc, if_pos h]
  · intro h
    rw [chunkDoc, if_neg (by omega)]

/-- Concrete instance of C5: overlap 5 ≥ size 2 is rejected, and at
the docker-compose defaults size 1000, overlap 100 chunking succeeds. -/
theorem chunker_config_error_witness :
    ((chunkDoc 2 5 ['x'] = Except.error ChunkErr.ConfigError ↔ 2 ≤ 5)
      ∧ (5 < 2 → chunkDoc 2 5 ['x'] = Except.ok (chunkFrom 2 5 ['x'])))
    ∧ ((chunkDoc 1000 100 ['x'] = Except.error ChunkErr.ConfigError ↔ 1000 ≤ 100)
      ∧ (100 < 1000 → chunkDoc 1000 100 ['x'] = Except.ok (chunkFrom 1000 100 ['x']))) :=
  ⟨chunker_config_error 2 5 ['x'], chunker_config_error 1000 100 ['x']⟩

/-- Modelled from the spec: a Chunk, the unit of embedding and retrieval,
carrying its text and the metadata (source document name, page number)
that the Vector Store and the query responses expose. -/
structure Chunk where
  text : List Char
  source : String
  page : Nat
deriving DecidableEq

/-- Modelled from the spec: an Index Entry of the Vector Store, the pair
of an embedding vector and its Chunk. -/
structure Entry where
  vec : List Int
  chunk : Chunk
deriving DecidableEq

/-- Modelled from the spec: the distance used for nearest-neighbor search,
squared Euclidean distance between integer vectors (the spec leaves the
metric to the implementation; this one is documented here and used
consistently). -/
def dist (x y : List Int) : Nat :=
  (List.zipWith (fun a b => ((a - b) * (a - b)).toNat) x y).sum

/-- Modelled from the spec: error taxonomy of the Vector Store query. -/
inductive StoreErr where
  | InvalidArgument
deriving DecidableEq

/-- Ordering of indexed entries by distance to the query vector, ties
broken by the original insertion index (stable order). -/
def entLe (v : List Int) (p q : Nat × Entry) : Prop :=
  dist v p.2.vec < dist v q.2.vec ∨ (dist v p.2.vec = dist v q.2.vec ∧ p.1 ≤ q.1)

instance (v : List Int) : DecidableRel (entLe v) := fun p q => by
  unfold entLe
  exact inferInstance

instance (v : List Int) : IsTotal (Nat × Entry) (entLe v) := by
  constructor
  intro a b
  unfold entLe
  omega

instance (v : List Int) : IsTrans (Nat × Entry) (entLe v) := by
  constructor
  intro a b c
  unfold entLe
  omega

/-- Entries paired with their insertion index. -/
def indexed (store : List Entry) : List (Nat × Entry) :=
  (List.range store.length).zip store

/-- Modelled from the spec: the stable distance-sorted view of the store
used by query(vector, k). -/
def querySorted (store : List Entry) (v : List Int) : List (Nat × Entry) :=
  List.insertionSort (entLe v) (indexed store)

/-- Modelled from the spec: the k entries of smallest distance, stable. -/
def queryTake (store : List Entry) (v : List Int) (k : Nat) : List Entry :=
  ((querySorted store v).take k).map Prod.snd

/-- Modelled from the spec: query(vector, k) of the Vector Store (backend
source missing).  Fails with InvalidArgument when k ≤ 0, otherwise returns
the k entries with smallest distance, ties broken by stable original
insertion order, fewer than k when the store holds fewer entries. -/
def queryStore (store : List Entry) (v : List Int) (k : Int) : Except StoreErr (List Entry) :=
  if k ≤ 0 then Except.error StoreErr.InvalidArgument
  else Except.ok (queryTake store v k.toNat)

/-- Modelled from the spec: delete_by_document(name) removes all entries
whose chunk belongs to the named document. -/
def delete_by_document (store : List Entry) (name : String) : List Entry :=
  store.filter (fun e => e.chunk.source != name)

theorem length_indexed (store : List Entry) : (indexed store).length = store.length := by
  simp [indexed]

theorem length_querySorted (store : List Entry) (v : List Int) :
    (querySorted store v).length = store.length := by
  rw [querySorted, (List.perm_insertionSort (entLe v) (indexed store)).length_eq,
    length_indexed]

theorem sorted_querySorted (store : List Entry) (v : List Int) :
    List.Sorted (entLe v) (querySorted store v) :=
  List.sorted_insertionSort (entLe v) (indexed store)

theorem perm_querySorted (store : List Entry) (v : List Int) :
    List.Perm (querySorted store v) (indexed store) :=
  List.perm_insertionSort (entLe v) (indexed store)

theorem snd_indexed (store : List Entry) : (indexed store).map Prod.snd = store :=
  List.map_snd_zip _ _ (by simp)

theorem mem_queryTake (store : List Entry) (v : List Int) (k : Nat) (e : Entry)
    (he : e ∈ queryTake store v k) : e ∈ store := by
  simp only [queryTake, List.mem_map] at he
  obtain ⟨p, hp, rfl⟩ := he
  have hp2 : p ∈ querySorted store v := List.mem_of_mem_take hp
  have hp3 : p ∈ indexed store := (perm_querySorted store v).mem_iff.mp hp2
  obtain ⟨p1, p2⟩ := p
  exact (List.of_mem_zip hp3).2

theorem sorted_queryTake (store : List Entry) (v : List Int) (k : Nat) :
    List.Pairwise (fun e₁ e₂ : Entry => dist v e₁.vec ≤ dist v e₂.vec) (queryTake store v k) := by
  have h1 : List.Pairwise (entLe v) (querySorted store v) := sorted_querySorted store v
  have h2 : List.Pairwise (entLe v) ((querySorted store v).take k) :=
    h1.sublist (List.take_sublist ..)
  refine h2.map Prod.snd ?_
  intro a b hab
  unfold entLe at hab
  omega

theorem length_queryTake (store : List Entry) (v : List Int) (k : Nat) :
    (queryTake store v k).length = min k store.length := by
  simp [queryTake, length_querySorted]

theorem queryTake_all (store : List Entry) (v : List Int) (k : Nat)
    (h : store.length ≤ k) : List.Perm (queryTake store v k) store := by
  have hlen : (querySorted store v).length ≤ k := by
    rw [length_querySorted]
    exact h
  rw [queryTake, List.take_of_length_le hlen]
  have h1 : List.Perm ((querySorted store v).map Prod.snd) ((indexed store).map Prod.snd) :=
    (perm_querySorted store v).map Prod.snd
  rw [snd_indexed store] at h1
  exact h1

/-- C2: query(vector, k) of the Vector Store fails with InvalidArgument
exactly when k ≤ 0; for k > 0 it returns the first k entries of the
distance-sorted stable view, which is a permutation of the indexed store
sorted by distance with ties in insertion-index order; the returned list
is ordered by non-decreasing distance, has length min k (store size), and
when the store holds at most k entries it is a permutation of the whole
store (all entries are returned, no error). -/
theorem vector_store_query_spec (store : List Entry) (v : List Int) (k : Int) :
    (k ≤ 0 → queryStore store v k = Except.error StoreErr.InvalidArgument)
    ∧ (0 < k → queryStore store v k = Except.ok (queryTake store v k.toNat))
    ∧ List.Sorted (entLe v) (querySorted store v)
    ∧ List.Perm (querySorted store v) (indexed store)
    ∧ List.Pairwise (fun e₁ e₂ : Entry => dist v e₁.vec ≤ dist v e₂.vec)
        (queryTake store v k.toNat)
    ∧ (queryTake store v k.toNat).length = min k.toNat store.length
    ∧ ((store.length : Int) ≤ k → List.Perm (queryTake store v k.toNat) store) := by
  refine ⟨?_, ?_, sorted_querySorted store v, perm_querySorted store v,
    sorted_queryTake store v k.toNat, length_queryTake store v k.toNat, ?_⟩
  · intro h
    rw [queryStore, if_pos h]
  · intro h
    rw [queryStore, if_neg (by omega)]
  · intro h
    exact queryTake_all store v k.toNat (by omega)

/-- Sample store for concrete instances: two entries of one document. -/
def sampleStore : List Entry :=
  [⟨[0, 0], ⟨['a'], "doc.pdf", 1⟩⟩, ⟨[3, 4], ⟨['b'], "doc.pdf", 2⟩⟩]

/-- Concrete instance of C2 on a two-entry store with k = 3 > store size. -/
theorem vector_store_query_spec_witness :
    ((3 : Int) ≤ 0 → queryStore sampleStore [0, 0] 3 = Except.error StoreErr.InvalidArgument)
    ∧ ((0 : Int) < 3 → queryStore sampleStore [0, 0] 3 =
        Except.ok (queryTake sampleStore [0, 0] (3 : Int).toNat))
    ∧ List.Sorted (entLe [0, 0]) (querySorted sampleStore [0, 0])
    ∧ List.Perm (querySorted sampleStore [0, 0]) (indexed sampleStore)
    ∧ List.Pairwise (fun e₁ e₂ : Entry => dist [0, 0] e₁.vec ≤ dist [0, 0] e₂.vec)
        (queryTake sampleStore [0, 0] (3 : Int).toNat)
    ∧ (queryTake sampleStore [0, 0] (3 : Int).toNat).length =
        min (3 : Int).toNat sampleStore.length
    ∧ ((sampleStore.length : Int) ≤ 3 →
        List.Perm (queryTake sampleStore [0, 0] (3 : Int).toNat) sampleStore) :=
  vector_store_query_spec sampleStore [0, 0] 3

theorem mem_delete_by_document (store : List Entry) (name : String) (e : Entry)
    (he : e ∈ delete_by_document store name) : e ∈ store ∧ e.chunk.source ≠ name := by
  simp only [delete_by_document, List.mem_filter, bne_iff_ne, ne_eq] at he
  exact ⟨he.1, he.2⟩

/-- C6: after delete_by_document(name) no entry with chunk metadata source
equal to name remains in the store, and any subsequent successful query on
the resulting store, whatever the query vector and k, returns no chunk
with metadata source equal to name. -/
theorem delete_by_document_purges (store : List Entry) (name : String) (v : List Int)
    (k : Int) (res : List Entry)
    (h : queryStore (delete_by_document store name) v k = Except.ok res) :
    (∀ e ∈ delete_by_document store name, e.chunk.source ≠ name)
    ∧ ∀ e ∈ res, e.chunk.source ≠ name := by
  constructor
  · intro e he
    exact (mem_delete_by_document store name e he).2
  · intro e he
    by_cases hk : k ≤ 0
    · rw [queryStore, if_pos hk] at h
      exact absurd h (by simp)
    · rw [queryStore, if_neg hk] at h
      simp only [Except.ok.injEq] at h
      subst h
      have hmem := mem_queryTake _ _ _ e he
      exact (mem_delete_by_document store name e hmem).2

/-- Concrete instance of C6: deleting old.pdf from a store holding it,
then querying, never returns an old.pdf chunk. -/
theorem delete_by_document_purges_witness :
    (∀ e ∈ delete_by_document (sampleStore ++ [⟨[1, 1], ⟨['c'], "old.pdf", 3⟩⟩]) "old.pdf",
      e.chunk.source ≠ "old.pdf")
    ∧ ∀ e ∈ queryTake
        (delete_by_document (sampleStore ++ [⟨[1, 1], ⟨['c'], "old.pdf", 3⟩⟩]) "old.pdf")
        [0, 0] (2 : Int).toNat,
      e.chunk.source ≠ "old.pdf" :=
  delete_by_document_purges (sampleStore ++ [⟨[1, 1], ⟨['c'], "old.pdf", 3⟩⟩]) "old.pdf"
    [0, 0] 2 _ rfl

/-- Modelled from the spec: a source Document, identified by file name,
with a checksum used for change detection and its pages
(page number, raw text). -/
structure Document where
  name : String
  checksum : Nat
  pages : List (Nat × List Char)
deriving DecidableEq

/-- Chunks of one page of a document, each carrying the source file name
and page number metadata. -/
def pageChunks (S O : Nat) (docName : String) (pg : Nat × List Char) : List Chunk :=
  (chunkFrom S O pg.2).map (fun t => ⟨t, docName, pg.1⟩)

/-- Modelled from the spec: all chunks of one document in page order. -/
def docChunks (S O : Nat) (d : Document) : List Chunk :=
  (d.pages.map (pageChunks S O d.name)).flatten

/-- All chunks of a document set, in document order. -/
def docsChunks (S O : Nat) (docs : List Document) : List Chunk :=
  (docs.map (docChunks S O)).flatten

/-- Modelled from the spec: the Embedder applied to one chunk — the index
entry upserted into the Vector Store for chunk c under embedding
function f. -/
def mkEntry (f : List Char → List Int) (c : Chunk) : Entry :=
  ⟨f c.text, c⟩

/-- Modelled from the spec: upsert of a single entry — idempotent:
re-inserting an entry with the same chunk identity replaces it in place,
an entry with a new identity is appended. -/
def upsertOne (store : List Entry) (e : Entry) : List Entry :=
  if store.any (fun x => x.chunk == e.chunk) then
    store.map (fun x => if x.chunk == e.chunk then e else x)
  else store ++ [e]

/-- Modelled from the spec: upsert(entries) of the Vector Store. -/
def upsert (store : List Entry) (es : List Entry) : List Entry :=
  es.foldl upsertOne store

/-- Modelled from the spec: the ingestion path Loader → Chunker →
Embedder → upsert for a whole document set. -/
def ingest (S O : Nat) (f : List Char → List Int) (docs : List Document)
    (store : List Entry) : List Entry :=
  upsert store ((docsChunks S O docs).map (mkEntry f))

theorem chunkPinned_upsertOne (s : List Entry) (e : Entry) :
    ∀ x ∈ upsertOne s e, x.chunk = e.chunk → x = e := by
  intro x hx hchunk
  unfold upsertOne at hx
  by_cases hany : s.any (fun y => y.chunk == e.chunk)
  · rw [if_pos hany] at hx
    obtain ⟨y, hy, hxy⟩ := List.mem_map.mp hx
    by_cases hyc : y.chunk = e.chunk
    · rw [← hxy]
      simp [hyc]
    · rw [← hxy] at hchunk ⊢
      simp [hyc] at hchunk
  · rw [if_neg hany] at hx
    rcases List.mem_append.mp hx with h1 | h1
    · exact absurd (List.any_eq_true.mpr ⟨x, h1, by simp [hchunk]⟩) hany
    · simpa using h1

theorem hasChunk_upsertOne (s : List Entry) (e : Entry) :
    ∃ x ∈ upsertOne s e, x.chunk = e.chunk := by
  unfold upsertOne
  by_cases hany : s.any (fun y => y.chunk == e.chunk)
  · rw [if_pos hany]
    obtain ⟨y, hy, hyc⟩ := List.any_eq_true.mp hany
    refine ⟨e, List.mem_map.mpr ⟨y, hy, ?_⟩, rfl⟩
    simp only [beq_iff_eq] at hyc
    simp [hyc]
  · rw [if_neg hany]
    exact ⟨e, by simp, rfl⟩

theorem hasChunk_mono (s : List Entry) (e : Entry) (c : Chunk)
    (h : ∃ x ∈ s, x.chunk = c) : ∃ x ∈ upsertOne s e, x.chunk = c := by
  obtain ⟨x, hx, hxc⟩ := h
  unfold upsertOne
  by_cases hany : s.any (fun y => y.chunk == e.chunk)
  · rw [if_pos hany]
    by_cases hxe : x.chunk = e.chunk
    · refine ⟨e, List.mem_map.mpr ⟨x, hx, by simp [hxe]⟩, ?_⟩
      rw [← hxe]
      exact hxc
    · exact ⟨x, List.mem_map.mpr ⟨x, hx, by simp [hxe]⟩, hxc⟩
  · rw [if_neg hany]
    exact ⟨x, List.mem_append.mpr (Or.inl hx), hxc⟩

theorem chunkPinned_preserved (s : List Entry) (e a : Entry)
    (hs : ∀ x ∈ s, x.chunk = a.chunk → x = a)
    (hea : e.chunk = a.chunk → e = a) :
    ∀ x ∈ upsertOne s e, x.chunk = a.chunk → x = a := by
  intro x hx hxa
  unfold upsertOne at hx
  by_cases hany : s.any (fun y => y.chunk == e.chunk)
  · rw [if_pos hany] at hx
    obtain ⟨y, hy, hxy⟩ := List.mem_map.mp hx
    by_cases hyc : y.chunk = e.chunk
    · rw [← hxy] at hxa ⊢
      simp [hyc] at hxa ⊢
      exact hea hxa
    · rw [← hxy] at hxa ⊢
      simp [hyc] at hxa ⊢
      exact hs y hy hxa
  · rw [if_neg hany] at hx
    rcases List.mem_append.mp hx with h1 | h1
    · exact hs x h1 hxa
    · simp only [List.mem_singleton] at h1
      subst h1
      exact hea hxa

theorem upsertOne_id (s : List Entry) (e : Entry)
    (hpres : ∃ x ∈ s, x.chunk = e.chunk)
    (hpin : ∀ x ∈ s, x.chunk = e.chunk → x = e) :
    upsertOne s e = s := by
  obtain ⟨y, hy, hyc⟩ := hpres
  have hany : s.any (fun x => x.chunk == e.chunk) = true :=
    List.any_eq_true.mpr ⟨y, hy, by simp [hyc]⟩
  unfold upsertOne
  rw [if_pos hany]
  have hcongr : ∀ x ∈ s, (if x.chunk == e.chunk then e else x) = id x := by
    intro x hx
    by_cases hxc : x.chunk = e.chunk
    · simp only [hxc, beq_self_eq_true, if_true, id_eq]
      exact (hpin x hx hxc).symm
    · simp [hxc]
  rw [List.map_congr_left hcongr, List.map_id]

theorem upsert_preserves (E : List Entry) (t : List Entry) (a : Entry)
    (hco : ∀ e' ∈ E, e'.chunk = a.chunk → e' = a)
    (hpres : ∃ x ∈ t, x.chunk = a.chunk)
    (hpin : ∀ x ∈ t, x.chunk = a.chunk → x = a) :
    (∃ x ∈ upsert t E, x.chunk = a.chunk)
    ∧ (∀ x ∈ upsert t E, x.chunk = a.chunk → x = a) := by
  induction E generalizing t with
  | nil => exact ⟨hpres, hpin⟩
  | cons e E ih =>
    have hco' : ∀ e' ∈ E, e'.chunk = a.chunk → e' = a := by
      intro e' he'
      exact hco e' (List.mem_cons_of_mem _ he')
    have hea : e.chunk = a.chunk → e = a := hco e (List.mem_cons_self e E)
    show (∃ x ∈ upsert (upsertOne t e) E, x.chunk = a.chunk)
      ∧ (∀ x ∈ upsert (upsertOne t e) E, x.chunk = a.chunk → x = a)
    exact ih (upsertOne t e) hco' (hasChunk_mono t e a.chunk hpres)
      (chunkPinned_preserved t e a hpin hea)

theorem upsert_establishes (E : List Entry) (s : List Entry)
    (hco : ∀ e ∈ E, ∀ e' ∈ E, e'.chunk = e.chunk → e' = e) :
    ∀ a ∈ E, (∃ x ∈ upsert s E, x.chunk = a.chunk)
      ∧ (∀ x ∈ upsert s E, x.chunk = a.chunk → x = a) := by
  induction E generalizing s with
  | nil =>
    intro a ha
    exact absurd ha (List.not_mem_nil a)
  | cons e E ih =>
    intro a ha
    rcases List.mem_cons.mp ha with rfl | haE
    · show (∃ x ∈ upsert (upsertOne s a) E, x.chunk = a.chunk)
        ∧ (∀ x ∈ upsert (upsertOne s a) E, x.chunk = a.chunk → x = a)
      refine upsert_preserves E (upsertOne s a) a ?_ (hasChunk_upsertOne s a)
        (chunkPinned_upsertOne s a)
      intro e' he'
      exact hco a ha e' (List.mem_cons_of_mem _ he')
    · have hcoE : ∀ x ∈ E, ∀ y ∈ E, y.chunk = x.chunk → y = x := by
        intro x hx y hy
        exact hco x (List.mem_cons_of_mem _ hx) y (List.mem_cons_of_mem _ hy)
      exact ih (upsertOne s e) hcoE a haE

theorem upsert_id (E : List Entry) (s : List Entry)
    (h : ∀ a ∈ E, (∃ x ∈ s, x.chunk = a.chunk) ∧ (∀ x ∈ s, x.chunk = a.chunk → x = a)) :
    upsert s E = s := by
  induction E with
  | nil => rfl
  | cons e E ih =>
    have he := h e (List.mem_cons_self e E)
    have h1 : upsertOne s e = s := upsertOne_id s e he.1 he.2
    show upsert (upsertOne s e) E = s
    rw [h1]
    exact ih fun a ha => h a (List.mem_cons_of_mem _ ha)

theorem entries_coherent (f : List Char → List Int) (cs : List Chunk) :
    ∀ e ∈ cs.map (mkEntry f), ∀ e' ∈ cs.map (mkEntry f), e'.chunk = e.chunk → e' = e := by
  intro e he e' he' hc
  obtain ⟨c, _, rfl⟩ := List.mem_map.mp he
  obtain ⟨c', _, rfl⟩ := List.mem_map.mp he'
  simp only [mkEntry] at hc ⊢
  rw [hc]

/-- C3: re-ingestion is idempotent — for any document set, embedding
function and starting store, ingesting the same unchanged documents a
second time leaves the Vector Store exactly as after the first ingestion,
so in particular the retrievable chunk content is permutation-equal. -/
theorem ingest_idempotent (S O : Nat) (f : List Char → List Int) (docs : List Document)
    (store : List Entry) :
    ingest S O f docs (ingest S O f docs store) = ingest S O f docs store
    ∧ List.Perm ((ingest S O f docs (ingest S O f docs store)).map Entry.chunk)
        ((ingest S O f docs store).map Entry.chunk) := by
  have hco := entries_coherent f (docsChunks S O docs)
  have hest := upsert_establishes ((docsChunks S O docs).map (mkEntry f)) store hco
  have hid : ingest S O f docs (ingest S O f docs store) = ingest S O f docs store := by
    unfold ingest
    exact upsert_id _ _ hest
  refine ⟨hid, ?_⟩
  rw [hid]

/-- Modelled from the spec: orchestrator lifecycle states. -/
inductive OState where
  | UNINITIALIZED
  | INITIALIZING
  | READY
deriving DecidableEq

/-- Modelled from the spec: the Pipeline Orchestrator — lifecycle state,
the Vector Store it owns, and the (name, checksum) records of the
documents ingested so far, used for change detection. -/
structure Orch where
  state : OState
  store : List Entry
  ingested : List (String × Nat)
deriving DecidableEq

/-- Modelled from the spec: query-path error taxonomy. -/
inductive QueryErr where
  | NotReady
deriving DecidableEq

/-- Modelled from the spec: an Answer — generated text plus the ordered
source chunks that informed it. -/
structure Answer where
  text : String
  source_chunks : List Chunk
deriving DecidableEq

/-- Modelled from the spec: the Retriever — embed the question, query the
Vector Store for the top_k nearest entries, return their chunks in
similarity order, closest first. -/
def retrieve (f : List Char → List Int) (store : List Entry) (q : List Char)
    (topk : Nat) : List Chunk :=
  (queryTake store (f q) topk).map Entry.chunk

/-- Modelled from the spec: query(question) of the orchestrator (backend
source missing).  Fails with NotReady while the state is not READY;
otherwise runs the Retriever and then the Answer Synthesizer (modelled as
the completion function synth) and returns the Answer. -/
def oQuery (f : List Char → List Int) (synth : List Char → List Chunk → String)
    (topk : Nat) (o : Orch) (q : List Char) : Except QueryErr Answer :=
  if o.state = OState.READY then
    Except.ok ⟨synth q (retrieve f o.store q topk), retrieve f o.store q topk⟩
  else Except.error QueryErr.NotReady

/-- Modelled from the spec: initialize(force_refresh) of the orchestrator
(backend source missing).  If the state is READY and no refresh is
forced, it is a no-op returning success immediately.  Otherwise it
enumerates the documents of the watch directory: entries of documents
removed from the directory are deleted, documents new or changed since
the last ingestion (by checksum) run through Loader → Chunker →
Embedder → upsert, and the orchestrator becomes READY with the new
ingestion records. -/
def oInitialize (S O : Nat) (f : List Char → List Int) (force : Bool)
    (docs : List Document) (o : Orch) : Orch :=
  if o.state = OState.READY ∧ force = false then o
  else
    Orch.mk OState.READY
      (ingest S O f
        (docs.filter
          (fun d => !(o.ingested.any (fun p => p.1 == d.name && p.2 == d.checksum))))
        (((o.ingested.filter (fun p => !(docs.any (fun d => d.name == p.1)))).map
            Prod.fst).foldl delete_by_document o.store))
      (docs.map (fun d => (d.name, d.checksum)))

/-- C4: query(question) while the orchestrator state is not READY (in
particular UNINITIALIZED) fails with NotReady, and it does so for every
embedding function and every synthesizer — neither the Retriever nor the
Answer Synthesizer influences the outcome, so neither runs; while READY
it runs the Retriever and then the Answer Synthesizer on the retrieved
chunks and returns the resulting Answer. -/
theorem query_requires_ready (f : List Char → List Int)
    (synth : List Char → List Chunk → String) (topk : Nat) (o : Orch) (q : List Char) :
    (o.state ≠ OState.READY →
      oQuery f synth topk o q = Except.error QueryErr.NotReady
      ∧ ∀ (f' : List Char → List Int) (synth' : List Char → List Chunk → String),
          oQuery f' synth' topk o q = Except.error QueryErr.NotReady)
    ∧ (o.state = OState.READY →
      oQuery f synth topk o q =
        Except.ok ⟨synth q (retrieve f o.store q topk), retrieve f o.store q topk⟩) := by
  constructor
  · intro h
    constructor
    · rw [oQuery, if_neg h]
    · intro f' synth'
      rw [oQuery, if_neg h]
  · intro h
    rw [oQuery, if_pos h]

/-- Embedding function for concrete instances. -/
def zeroEmbed : List Char → List Int := fun _ => [0, 0]

/-- Synthesizer function for concrete instances. -/
def constSynth : List Char → List Chunk → String := fun _ _ => "the answer"

/-- Freshly constructed orchestrator, before any initialize call. -/
def emptyOrch : Orch := ⟨OState.UNINITIALIZED, [], []⟩

/-- Concrete instance of C4: a query against an UNINITIALIZED
orchestrator fails with NotReady. -/
theorem query_requires_ready_witness :
    (emptyOrch.state ≠ OState.READY →
      oQuery zeroEmbed constSynth 4 emptyOrch ['q'] = Except.error QueryErr.NotReady
      ∧ ∀ (f' : List Char → List Int) (synth' : List Char → List Chunk → String),
          oQuery f' synth' 4 emptyOrch ['q'] = Except.error QueryErr.NotReady)
    ∧ (emptyOrch.state = OState.READY →
      oQuery zeroEmbed constSynth 4 emptyOrch ['q'] =
        Except.ok ⟨constSynth ['q'] (retrieve zeroEmbed emptyOrch.store ['q'] 4),
          retrieve zeroEmbed emptyOrch.store ['q'] 4⟩) :=
  query_requires_ready zeroEmbed constSynth 4 emptyOrch ['q']

/-- C7: initialize(force_refresh = false) while the state is READY is a
no-op — the orchestrator is returned unchanged, so the state stays READY
and the Vector Store contents are untouched; this holds for every
embedding function, so no re-embedding or upsert occurs. -/
theorem initialize_ready_noop (S O : Nat) (f : List Char → List Int)
    (docs : List Document) (o : Orch) (h : o.state = OState.READY) :
    oInitialize S O f false docs o = o
    ∧ (oInitialize S O f false docs o).state = OState.READY
    ∧ (oInitialize S O f false docs o).store = o.store
    ∧ ∀ f' : List Char → List Int, oInitialize S O f' false docs o = o := by
  have hid : ∀ g : List Char → List Int, oInitialize S O g false docs o = o := by
    intro g
    rw [oInitialize, if_pos ⟨h, rfl⟩]
  refine ⟨hid f, ?_, ?_, hid⟩
  · rw [hid f, h]
  · rw [hid f]

/-- Orchestrator that has reached READY with the sample store. -/
def readyOrch : Orch := ⟨OState.READY, sampleStore, [("doc.pdf", 7)]⟩

/-- Concrete instance of C7 on a READY orchestrator. -/
theorem initialize_ready_noop_witness :
    oInitialize 1000 100 zeroEmbed false [] readyOrch = readyOrch
    ∧ (oInitialize 1000 100 zeroEmbed false [] readyOrch).state = OState.READY
    ∧ (oInitialize 1000 100 zeroEmbed false [] readyOrch).store = readyOrch.store
    ∧ ∀ f' : List Char → List Int,
        oInitialize 1000 100 f' false [] readyOrch = readyOrch :=
  initialize_ready_noop 1000 100 zeroEmbed [] readyOrch rfl

/-- Metadata object of one source element of a query response: the
document name and page number that App.js reads as
source.metadata.source and source.metadata.page. -/
structure MetaJson where
  source : String
  page : Nat
deriving DecidableEq

/-- One element of the sources array of a query response. -/
structure SourceJson where
  metadata : MetaJson
deriving DecidableEq

/-- Shape of the POST /query response body as consumed by the frontend:
the status discriminant, then the fields each branch reads — answer and
sources on success, message on error.  Absent fields are none. -/
structure QueryResponseJson where
  status : String
  answer : Option String
  sources : Option (List SourceJson)
  message : Option String
deriving DecidableEq

/-- The sources-array element exposing a chunk metadata. -/
def chunkToSource (c : Chunk) : SourceJson :=
  ⟨⟨c.source, c.page⟩⟩

/-- Modelled from the spec: the POST /query endpoint of the backend
(source missing).  On success the body carries status success, the
answer text and one sources element per source chunk; on failure the
error envelope with a message. -/
def postQuery (f : List Char → List Int) (synth : List Char → List Chunk → String)
    (topk : Nat) (o : Orch) (q : List Char) : QueryResponseJson :=
  match oQuery f synth topk o q with
  | Except.ok a =>
      ⟨"success", some a.text, some (a.source_chunks.map chunkToSource), none⟩
  | Except.error _ =>
      ⟨"error", none, none, some ("Knowledge base is not ready")⟩

/-- State of the App component of App.js restricted to the fields the
query form touches: query text, displayed answer, sources list, loading
flag and the snackbar. -/
structure AppState where
  query : List Char
  answer : String
  sources : List SourceJson
  loading : Bool
  snackbarMessage : String
  snackbarSeverity : String
  openSnackbar : Bool
deriving DecidableEq

/-- JavaScript String.prototype.trim as applied by query.trim() in
App.js: whitespace removed from both ends. -/
def jsTrim (l : List Char) : List Char :=
  ((l.dropWhile Char.isWhitespace).reverse.dropWhile Char.isWhitespace).reverse

/-- Outcome of the axios.post call in handleSubmit: a response body, or
a network error diverted to the catch block. -/
inductive NetResult where
  | ok (resp : QueryResponseJson)
  | neterr
deriving DecidableEq

/-- showSnackbar of App.js: sets message and severity and opens it. -/
def showSnackbar (st : AppState) (msg sev : String) : AppState :=
  ⟨st.query, st.answer, st.sources, st.loading, msg, sev, true⟩

/-- handleSubmit of App.js as a state transition; the Bool of the result
tells whether the network request was issued.  An empty-after-trim query
returns immediately with no request; otherwise loading is set and answer
and sources are cleared, the response (or network error) is handled —
answer and sources are set only when response.data.status is success,
with sources defaulting to the empty list, and the snackbar shows the
error otherwise — and the finally block resets loading. -/
def handleSubmit (st : AppState) (net : NetResult) : AppState × Bool :=
  if jsTrim st.query = [] then (st, false)
  else
    let st1 : AppState :=
      ⟨st.query, "", [], true, st.snackbarMessage, st.snackbarSeverity, st.openSnackbar⟩
    let st2 : AppState :=
      match net with
      | NetResult.ok resp =>
          if resp.status = "success" then
            ⟨st1.query, resp.answer.getD (""), resp.sources.getD [], st1.loading,
              st1.snackbarMessage, st1.snackbarSeverity, st1.openSnackbar⟩
          else showSnackbar st1 (resp.message.getD ("Error getting answer")) ("error")
      | NetResult.neterr => showSnackbar st1 ("Error submitting query") ("error")
    (⟨st2.query, st2.answer, st2.sources, false, st2.snackbarMessage,
      st2.snackbarSeverity, st2.openSnackbar⟩, true)

/-- Disabled condition of the Ask button in App.js: loading, or query
empty after trimming. -/
def askDisabled (st : AppState) : Bool :=
  st.loading || (jsTrim st.query).isEmpty

/-- C8: a successful POST /query response — and READY is exactly the
successful case — has status success, the synthesized answer string and
one sources element per retrieved chunk, each element carrying metadata
with the chunk source document name and page; on failure the error
envelope with a message is returned instead; and this is exactly the
shape handleSubmit of App.js consumes — on a success status it stores
the answer and sources fields of the body. -/
theorem post_query_response_shape (f : List Char → List Int)
    (synth : List Char → List Chunk → String) (topk : Nat) (o : Orch) (q : List Char) :
    (o.state = OState.READY →
      postQuery f synth topk o q =
        QueryResponseJson.mk "success" (some (synth q (retrieve f o.store q topk)))
          (some ((retrieve f o.store q topk).map chunkToSource)) none)
    ∧ (o.state ≠ OState.READY →
      postQuery f synth topk o q =
        QueryResponseJson.mk "error" none none (some ("Knowledge base is not ready")))
    ∧ (∀ c : Chunk, (chunkToSource c).metadata.source = c.source
        ∧ (chunkToSource c).metadata.page = c.page)
    ∧ (∀ (st : AppState) (resp : QueryResponseJson), jsTrim st.query ≠ [] →
        resp.status = "success" →
        (handleSubmit st (NetResult.ok resp)).1.answer = resp.answer.getD ("")
        ∧ (handleSubmit st (NetResult.ok resp)).1.sources = resp.sources.getD []) := by
  refine ⟨?_, ?_, fun c => ⟨rfl, rfl⟩, ?_⟩
  · intro h
    rw [postQuery, oQuery, if_pos h]
  · intro h
    rw [postQuery, oQuery, if_neg h]
  · intro st resp hq hs
    constructor
    · simp [handleSubmit, hq, hs]
    · simp [handleSubmit, hq, hs]

/-- Concrete instance of C8 on the READY orchestrator. -/
theorem post_query_response_shape_witness :
    (readyOrch.state = OState.READY →
      postQuery zeroEmbed constSynth 4 readyOrch ['q'] =
        QueryResponseJson.mk "success"
          (some (constSynth ['q'] (retrieve zeroEmbed readyOrch.store ['q'] 4)))
          (some ((retrieve zeroEmbed readyOrch.store ['q'] 4).map chunkToSource)) none)
    ∧ (readyOrch.state ≠ OState.READY →
      postQuery zeroEmbed constSynth 4 readyOrch ['q'] =
        QueryResponseJson.mk "error" none none (some ("Knowledge base is not ready")))
    ∧ (∀ c : Chunk, (chunkToSource c).metadata.source = c.source
        ∧ (chunkToSource c).metadata.page = c.page)
    ∧ (∀ (st : AppState) (resp : QueryResponseJson), jsTrim st.query ≠ [] →
        resp.status = "success" →
        (handleSubmit st (NetResult.ok resp)).1.answer = resp.answer.getD ("")
        ∧ (handleSubmit st (NetResult.ok resp)).1.sources = resp.sources.getD []) :=
  post_query_response_shape zeroEmbed constSynth 4 readyOrch ['q']

/-- C9: submitting the query form with a query that is empty after
trimming issues no network request and leaves the whole state — in
particular answer, sources and loading — unchanged, and the Ask button
is disabled for such input. -/
theorem empty_query_no_request (st : AppState) (net : NetResult)
    (h : jsTrim st.query = []) :
    handleSubmit st net = (st, false)
    ∧ (handleSubmit st net).1.answer = st.answer
    ∧ (handleSubmit st net).1.sources = st.sources
    ∧ (handleSubmit st net).1.loading = st.loading
    ∧ askDisabled st = true := by
  have h1 : handleSubmit st net = (st, false) := by
    rw [handleSubmit, if_pos h]
  refine ⟨h1, by rw [h1], by rw [h1], by rw [h1], ?_⟩
  rw [askDisabled]
  simp [h]

/-- Frontend state with a whitespace-only query and a stale answer. -/
def blankQueryState : AppState :=
  ⟨[' ', ' '], "stale", [⟨⟨"doc.pdf", 1⟩⟩], false, "", "info", false⟩

/-- Concrete instance of C9 on a whitespace-only query. -/
theorem empty_query_no_request_witness :
    handleSubmit blankQueryState NetResult.neterr = (blankQueryState, false)
    ∧ (handleSubmit blankQueryState NetResult.neterr).1.answer = blankQueryState.answer
    ∧ (handleSubmit blankQueryState NetResult.neterr).1.sources = blankQueryState.sources
    ∧ (handleSubmit blankQueryState NetResult.neterr).1.loading = blankQueryState.loading
    ∧ askDisabled blankQueryState = true :=
  empty_query_no_request blankQueryState NetResult.neterr (by decide)

/-- C10: for every submission that passes the trim guard, loading is
false on every exit path, and when the outcome is not a success response
(network error, or a response whose status is not success) the displayed
answer is the empty string and the sources list is empty — the stale
results cleared at the start of the submission are never restored. -/
theorem failed_query_clears_results (st : AppState) (net : NetResult)
    (h : jsTrim st.query ≠ []) :
    (handleSubmit st net).1.loading = false
    ∧ (∀ resp : QueryResponseJson, net = NetResult.ok resp → resp.status ≠ "success" →
        (handleSubmit st net).1.answer = ""
        ∧ (handleSubmit st net).1.sources = [])
    ∧ (net = NetResult.neterr →
        (handleSubmit st net).1.answer = ""
        ∧ (handleSubmit st net).1.sources = []) := by
  refine ⟨?_, ?_, ?_⟩
  · cases net with
    | ok resp =>
      by_cases hs : resp.status = "success"
      · simp [handleSubmit, h, hs]
      · simp [handleSubmit, h, hs, showSnackbar]
    | neterr => simp [handleSubmit, h, showSnackbar]
  · intro resp hnet hs
    subst hnet
    constructor
    · simp [handleSubmit, h, hs, showSnackbar]
    · simp [handleSubmit, h, hs, showSnackbar]
  · intro hnet
    subst hnet
    constructor
    · simp [handleSubmit, h, showSnackbar]
    · simp [handleSubmit, h, showSnackbar]

/-- Frontend state with a non-blank query. -/
def askingState : AppState :=
  ⟨['h', 'i'], "stale", [⟨⟨"doc.pdf", 1⟩⟩], true, "", "info", false⟩

/-- Concrete instance of C10 on a network error. -/
theorem failed_query_clears_results_witness :
    (handleSubmit askingState NetResult.neterr).1.loading = false
    ∧ (∀ resp : QueryResponseJson,
        NetResult.neterr = NetResult.ok resp → resp.status ≠ "success" →
        (handleSubmit askingState NetResult.neterr).1.answer = ""
        ∧ (handleSubmit askingState NetResult.neterr).1.sources = [])
    ∧ (NetResult.neterr = NetResult.neterr →
        (handleSubmit askingState NetResult.neterr).1.answer = ""
        ∧ (handleSubmit askingState NetResult.neterr).1.sources = []) :=
  failed_query_clears_results askingState NetResult.neterr (by decide)

end TP
